import Mathlib

/- Shallow embedding of the SubstraPunks marketplace contract
   (src/smart_contracts/market/lib.rs, ink! contract module `matchingengine`).

   Machine integers: `Balance` and the id counters are u128 in the source and
   the contract relies on wrapping arithmetic (it guards overflow with explicit
   asserts such as `initial_balance + deposit_balance > initial_balance`);
   we model u128 values as `Nat` with `% U128` at every addition.
   `AccountId`, collection ids and token ids are opaque and modelled as `Nat`.
   `ink_storage::collections::HashMap` is modelled as an association list with
   no duplicate keys; `insert` replaces an existing binding, `take` removes it.

   Each `#[ink(message)]` either runs to completion or panics (assert! or
   unwrap); a panic aborts the invocation and the host reverts all of its
   mutations.  A message body is modelled as a function returning `Outcome`:
   `ok` with the final state, or `err` with the panic kind AND the state at the
   moment of the panic, so that the check-before-mutate ordering of the source
   stays visible.  `step` applies the host-level revert semantics on top. -/

/-- 2 ^ 128, the modulus of the u128 arithmetic used by the contract. -/
def U128 : Nat := 340282366920938463463374607431768211456

abbrev AccountId := Nat

/-- Withdraw types (`WithdrawType` in the source). -/
inductive WithdrawType where
  /-- Withdraw by seller after successful trade -/
  | WithdrawMatched
  /-- Withdraw after cancelled or errored trade -/
  | WithdrawUnused
deriving DecidableEq

/-- Panic kinds of the contract, one per kind of failed assert/unwrap:
    failed `assert_eq` on the caller identity; `unwrap` of a missing map
    entry; failed balance-sufficiency assert; failed overflow-guard assert. -/
inductive Err where
  | Unauthorized
  | NotFound
  | InsufficientFunds
  | Overflow
deriving DecidableEq

/-- `HashMap::get` on the association-list model. -/
def hmGet {α β : Type} [DecidableEq α] : List (α × β) → α → Option β
  | [], _ => none
  | (k, v) :: t, k' => if k = k' then some v else hmGet t k'

/-- `HashMap::insert` on the association-list model: replaces the binding of
    an existing key, otherwise appends a new binding. -/
def hmInsert {α β : Type} [DecidableEq α] : List (α × β) → α → β → List (α × β)
  | [], k', v' => [(k', v')]
  | (k, v) :: t, k', v' => if k = k' then (k', v') :: t else (k, v) :: hmInsert t k' v'

/-- `HashMap::take` (value discarded) on the association-list model. -/
def hmRemove {α β : Type} [DecidableEq α] : List (α × β) → α → List (α × β)
  | [], _ => []
  | (k, v) :: t, k' => if k = k' then t else (k, v) :: hmRemove t k'

/-- The keys of an association list. -/
def keys {α β : Type} (l : List (α × β)) : List α := l.map Prod.fst

/-- Storage of the `MatchingEngine` contract, field for field. -/
structure MatchingEngine where
  /-- Contract owner -/
  owner : AccountId
  /-- Contract admin (server that will input/output quote currency) -/
  admin : AccountId
  /-- Balances by quote currency ID and address -/
  quote_balance : List ((Nat × AccountId) × Nat)
  /-- Total trades counter (resettable) -/
  total_traded : List (Nat × Nat)
  /-- Vault withdraw ledger -/
  withdraw_queue : List (Nat × (AccountId × Nat × WithdrawType))
  /-- Last withdraw id -/
  last_withdraw_id : Nat
  /-- Recorded NFT deposits -/
  nft_deposits : List ((Nat × Nat) × AccountId)
  /-- NFT Vault withdraw ledger -/
  nft_withdraw_queue : List (Nat × (AccountId × Nat × Nat))
  /-- Last NFT withdraw index -/
  last_nft_withdraw_id : Nat
  /-- Current asks: ask_id -> (collectionId, tokenId, quote_id, price, seller) -/
  asks : List (Nat × (Nat × Nat × Nat × Nat × AccountId))
  /-- Ask index: helps find the ask by the collectionId + tokenId -/
  asks_by_token : List ((Nat × Nat) × Nat)
  /-- Last Ask ID -/
  last_ask_id : Nat
deriving DecidableEq

/-- Result of one message invocation: the final state on success, or the
    panic kind together with the state at the moment of the panic. -/
inductive Outcome where
  | ok (s : MatchingEngine)
  | err (e : Err) (s : MatchingEngine)
deriving DecidableEq

/-- The error kind of an outcome, if any. -/
def errOf : Outcome → Option Err
  | .ok _ => none
  | .err e _ => some e

/-- The state carried by an outcome (final state, or state at the panic). -/
def stateOf : Outcome → MatchingEngine
  | .ok s => s
  | .err _ s => s

/-- Constructor `new`: `total_traded` is seeded with currency 2 only,
    the caller becomes the owner, the admin is `AccountId::default()`. -/
def MatchingEngine.new (caller : AccountId) : MatchingEngine :=
  { owner := caller
    admin := 0
    quote_balance := []
    total_traded := [(2, 0)]
    withdraw_queue := []
    last_withdraw_id := 0
    nft_deposits := []
    nft_withdraw_queue := []
    last_nft_withdraw_id := 0
    asks := []
    asks_by_token := []
    last_ask_id := 0 }

/-- `balance_of_or_zero`: stored balance, or 0 when the entry is absent. -/
def balance_of_or_zero (s : MatchingEngine) (quote_id : Nat) (user : AccountId) : Nat :=
  (hmGet s.quote_balance (quote_id, user)).getD 0

/-- `get_total`: `total_traded.get(quote_id).unwrap()`, `none` = panic. -/
def get_total (s : MatchingEngine) (quote_id : Nat) : Option Nat :=
  hmGet s.total_traded quote_id

/-- `get_ask_id_by_token`: `asks_by_token.get((c,t)).unwrap()`, `none` = panic. -/
def get_ask_id_by_token (s : MatchingEngine) (collection_id token_id : Nat) : Option Nat :=
  hmGet s.asks_by_token (collection_id, token_id)

/-- `set_admin`: owner only. -/
def set_admin (caller : AccountId) (admin : AccountId) (s : MatchingEngine) : Outcome :=
  if caller ≠ s.owner then .err .Unauthorized s
  else .ok { s with admin := admin }

/-- `reset_total`: owner only, sets the counter of the currency to 0. -/
def reset_total (caller : AccountId) (quote_id : Nat) (s : MatchingEngine) : Outcome :=
  if caller ≠ s.owner then .err .Unauthorized s
  else .ok { s with total_traded := hmInsert s.total_traded quote_id 0 }

/-- `register_deposit`: admin only; overflow guard
    `assert!(initial_balance + deposit_balance > initial_balance)` (wrapping
    u128 addition), then the balance is set to the wrapped sum. -/
def register_deposit (caller : AccountId) (quote_id deposit_balance : Nat)
    (user : AccountId) (s : MatchingEngine) : Outcome :=
  if caller ≠ s.admin then .err .Unauthorized s
  else
    let initial_balance := balance_of_or_zero s quote_id user
    if (initial_balance + deposit_balance) % U128 ≤ initial_balance then .err .Overflow s
    else
      let qb := hmInsert s.quote_balance (quote_id, user) ((initial_balance + deposit_balance) % U128)
      .ok { s with quote_balance := qb }

/-- `register_nft_deposit`: admin only; records the deposit unconditionally,
    overwriting any existing record for the same (collection, token). -/
def register_nft_deposit (caller : AccountId) (collection_id token_id : Nat)
    (user : AccountId) (s : MatchingEngine) : Outcome :=
  if caller ≠ s.admin then .err .Unauthorized s
  else .ok { s with nft_deposits := hmInsert s.nft_deposits (collection_id, token_id) user }

/-- `vault_withdraw`: checks the balance is sufficient, debits it, then
    appends a withdraw-queue entry under the incremented id. -/
def vault_withdraw (user : AccountId) (quote_id withdraw_balance : Nat)
    (withdraw_type : WithdrawType) (s : MatchingEngine) : Outcome :=
  let initial_balance := balance_of_or_zero s quote_id user
  if initial_balance < withdraw_balance then .err .InsufficientFunds s
  else
    let qb := hmInsert s.quote_balance (quote_id, user) (initial_balance - withdraw_balance)
    let s1 := { s with quote_balance := qb }
    let nid := (s1.last_withdraw_id + 1) % U128
    .ok { s1 with
      last_withdraw_id := nid
      withdraw_queue := hmInsert s1.withdraw_queue nid (user, withdraw_balance, withdraw_type) }

/-- `withdraw`: user-initiated withdraw of own funds. -/
def withdraw (caller : AccountId) (quote_id withdraw_balance : Nat)
    (s : MatchingEngine) : Outcome :=
  vault_withdraw caller quote_id withdraw_balance .WithdrawUnused s

/-- `remove_ask`: removes the reverse-index entry and the ask. -/
def remove_ask (collection_id token_id ask_id : Nat) (s : MatchingEngine) : MatchingEngine :=
  { s with
    asks_by_token := hmRemove s.asks_by_token (collection_id, token_id)
    asks := hmRemove s.asks ask_id }

/-- `ask`: requires a deposit record for the token (unwrap = NotFound panic);
    unless the caller is the contract owner the caller must be the deposit
    owner; consumes the deposit record and creates the ask together with its
    reverse-index entry under the incremented ask id.  The recorded seller is
    the deposit owner. -/
def ask (caller : AccountId) (collection_id token_id quote_id price : Nat)
    (s : MatchingEngine) : Outcome :=
  match hmGet s.nft_deposits (collection_id, token_id) with
  | none => .err .NotFound s
  | some deposit_owner =>
    if caller ≠ s.owner ∧ deposit_owner ≠ caller then .err .Unauthorized s
    else
      let s1 := { s with nft_deposits := hmRemove s.nft_deposits (collection_id, token_id) }
      let ask_id := (s1.last_ask_id + 1) % U128
      .ok { s1 with
        last_ask_id := ask_id
        asks := hmInsert s1.asks ask_id (collection_id, token_id, quote_id, price, deposit_owner)
        asks_by_token := hmInsert s1.asks_by_token (collection_id, token_id) ask_id }

/-- `cancel`: resolves the ask through the reverse index (unwrap = NotFound);
    unless the caller is the contract owner the caller must be the recorded
    seller; removes the ask and its reverse-index entry and enqueues an NFT
    withdraw for the seller. -/
def cancel (caller : AccountId) (collection_id token_id : Nat)
    (s : MatchingEngine) : Outcome :=
  match hmGet s.asks_by_token (collection_id, token_id) with
  | none => .err .NotFound s
  | some ask_id =>
    match hmGet s.asks ask_id with
    | none => .err .NotFound s
    | some (_, _, _, _, user) =>
      if caller ≠ s.owner ∧ caller ≠ user then .err .Unauthorized s
      else
        let s1 := remove_ask collection_id token_id ask_id s
        let nid := (s1.last_nft_withdraw_id + 1) % U128
        .ok { s1 with
          last_nft_withdraw_id := nid
          nft_withdraw_queue := hmInsert s1.nft_withdraw_queue nid (user, collection_id, token_id) }

/-- `buy`: resolves the ask (unwraps = NotFound); checks the buyer balance;
    checks the wrapping seller-credit overflow guard; debits the buyer and
    credits the seller; removes the ask; enqueues the NFT withdraw to the
    buyer; runs `vault_withdraw` of the price for the seller (WithdrawMatched);
    finally updates `total_traded` through an unchecked `unwrap` of the
    currency's counter (a panic site reached after the mutations). -/
def buy (caller : AccountId) (collection_id token_id : Nat)
    (s : MatchingEngine) : Outcome :=
  match hmGet s.asks_by_token (collection_id, token_id) with
  | none => .err .NotFound s
  | some ask_id =>
    match hmGet s.asks ask_id with
    | none => .err .NotFound s
    | some (_, _, quote_id, price, seller) =>
      let initial_buyer_balance := balance_of_or_zero s quote_id caller
      if initial_buyer_balance < price then .err .InsufficientFunds s
      else
        let initial_seller_balance := balance_of_or_zero s quote_id seller
        if (initial_seller_balance + price) % U128 ≤ initial_seller_balance then .err .Overflow s
        else
          let qb1 := hmInsert s.quote_balance (quote_id, caller) (initial_buyer_balance - price)
          let s1 := { s with quote_balance := qb1 }
          let qb2 := hmInsert s1.quote_balance (quote_id, seller) ((initial_seller_balance + price) % U128)
          let s2 := { s1 with quote_balance := qb2 }
          let s3 := remove_ask collection_id token_id ask_id s2
          let nid := (s3.last_nft_withdraw_id + 1) % U128
          let s4 := { s3 with
            last_nft_withdraw_id := nid
            nft_withdraw_queue := hmInsert s3.nft_withdraw_queue nid (caller, collection_id, token_id) }
          match vault_withdraw seller quote_id price .WithdrawMatched s4 with
          | .err e s5 => .err e s5
          | .ok s5 =>
            match hmGet s5.total_traded quote_id with
            | none => .err .NotFound s5
            | some total =>
              let tt := hmInsert s5.total_traded quote_id ((total + price) % U128)
              .ok { s5 with total_traded := tt }

/-- One invocation of a state-mutating message, with its caller. -/
inductive Call where
  | set_admin (caller admin : AccountId)
  | reset_total (caller quote_id : Nat)
  | register_deposit (caller quote_id deposit_balance : Nat) (user : AccountId)
  | register_nft_deposit (caller collection_id token_id : Nat) (user : AccountId)
  | withdraw (caller quote_id withdraw_balance : Nat)
  | ask (caller collection_id token_id quote_id price : Nat)
  | cancel (caller collection_id token_id : Nat)
  | buy (caller collection_id token_id : Nat)
deriving DecidableEq

/-- Dispatch one invocation. -/
def runCall : Call → MatchingEngine → Outcome
  | .set_admin caller a, s => set_admin caller a s
  | .reset_total caller q, s => reset_total caller q s
  | .register_deposit caller q b u, s => register_deposit caller q b u s
  | .register_nft_deposit caller c t u, s => register_nft_deposit caller c t u s
  | .withdraw caller q b, s => withdraw caller q b s
  | .ask caller c t q p, s => ask caller c t q p s
  | .cancel caller c t, s => cancel caller c t s
  | .buy caller c t, s => buy caller c t s

/-- Host-level semantics of one invocation: a panic reverts every mutation,
    so the pre-state is kept on error. -/
def step (s : MatchingEngine) (c : Call) : MatchingEngine :=
  match runCall c s with
  | .ok s' => s'
  | .err _ _ => s

/-- Host-level semantics of a sequence of invocations. -/
def runAll (calls : List Call) (s : MatchingEngine) : MatchingEngine :=
  calls.foldl step s

/- ===== Well-formedness: states representable by the ink! storage ===== -/

/-- The association lists modelling `HashMap`s have no duplicate keys. -/
def WFmaps (s : MatchingEngine) : Prop :=
  (keys s.quote_balance).Nodup ∧ (keys s.total_traded).Nodup ∧
  (keys s.withdraw_queue).Nodup ∧ (keys s.nft_deposits).Nodup ∧
  (keys s.nft_withdraw_queue).Nodup ∧ (keys s.asks).Nodup ∧ (keys s.asks_by_token).Nodup

instance (s : MatchingEngine) : Decidable (WFmaps s) := by
  unfold WFmaps; infer_instance

/-- Stored balances and stored ask prices are representable u128 values. -/
def WFbounds (s : MatchingEngine) : Prop :=
  (∀ e ∈ s.quote_balance, e.2 < U128) ∧ (∀ e ∈ s.asks, e.2.2.2.2.1 < U128)

instance (s : MatchingEngine) : Decidable (WFbounds s) := by
  unfold WFbounds; infer_instance


/-- The extra hypothesis under which `buy` cannot panic after its first
    mutation: whenever the reverse index and ask map resolve the key, the
    listed quote currency has an entry in the traded-volume table.  All
    other messages need nothing. -/
def BuyTotalsOk : Call → MatchingEngine → Prop
  | .buy _ c t, s =>
    ∀ ask_id cc tt q p seller, hmGet s.asks_by_token (c, t) = some ask_id →
      hmGet s.asks ask_id = some (cc, tt, q, p, seller) →
      hmGet s.total_traded q ≠ none
  | _, _ => True

/-- Ask-book invariant maintained by every reachable state: every
    reverse-index entry points to a live ask carrying exactly its key and an
    id in [1, last_ask_id]; the reverse index is injective; every live ask id
    lies in [1, last_ask_id]. -/
def AskInv (s : MatchingEngine) : Prop :=
  (∀ k id, hmGet s.asks_by_token k = some id →
    (∃ q p a, hmGet s.asks id = some (k.1, k.2, q, p, a)) ∧ 1 ≤ id ∧ id ≤ s.last_ask_id) ∧
  (∀ k1 k2 id, hmGet s.asks_by_token k1 = some id →
    hmGet s.asks_by_token k2 = some id → k1 = k2) ∧
  (∀ id e, hmGet s.asks id = some e → 1 ≤ id ∧ id ≤ s.last_ask_id)

/-- Withdraw-queue invariant: every issued id lies in [1, counter]. -/
def QueueInv (s : MatchingEngine) : Prop :=
  (∀ id e, hmGet s.withdraw_queue id = some e → 1 ≤ id ∧ id ≤ s.last_withdraw_id) ∧
  (∀ id e, hmGet s.nft_withdraw_queue id = some e → 1 ≤ id ∧ id ≤ s.last_nft_withdraw_id)

/-- The three id counters are bounded by the number of calls executed. -/
def CountersLe (s : MatchingEngine) (n : Nat) : Prop :=
  s.last_ask_id ≤ n ∧ s.last_withdraw_id ≤ n ∧ s.last_nft_withdraw_id ≤ n

/-- Combined invariant of states reachable in at most `n` calls. -/
def ReachInv (s : MatchingEngine) (n : Nat) : Prop :=
  WFmaps s ∧ AskInv s ∧ QueueInv s ∧ CountersLe s n

/-- Per-call id-allocation discipline: each counter either stays put or is
    bumped by exactly one, and a bumped counter's new value was not a key of
    the corresponding map before the call and is one after it. -/
def AllocStep (s : MatchingEngine) (cl : Call) : Prop :=
  ∀ s', runCall cl s = .ok s' →
    (s'.last_ask_id = s.last_ask_id ∨
      (s'.last_ask_id = s.last_ask_id + 1 ∧ hmGet s.asks s'.last_ask_id = none ∧
        hmGet s'.asks s'.last_ask_id ≠ none)) ∧
    (s'.last_withdraw_id = s.last_withdraw_id ∨
      (s'.last_withdraw_id = s.last_withdraw_id + 1 ∧
        hmGet s.withdraw_queue s'.last_withdraw_id = none ∧
        hmGet s'.withdraw_queue s'.last_withdraw_id ≠ none)) ∧
    (s'.last_nft_withdraw_id = s.last_nft_withdraw_id ∨
      (s'.last_nft_withdraw_id = s.last_nft_withdraw_id + 1 ∧
        hmGet s.nft_withdraw_queue s'.last_nft_withdraw_id = none ∧
        hmGet s'.nft_withdraw_queue s'.last_nft_withdraw_id ≠ none))

/-- A small concrete state: owner 1, admin 2; account 3 has listed token
    (7,42) at price 500 in currency 3 (ask id 1); account 4 holds 500 of
    currency 3; traded-volume table has entries for currencies 2 and 3. -/
def demoListing : MatchingEngine :=
  { owner := 1, admin := 2, quote_balance := [((3, 4), 500)],
    total_traded := [(2, 0), (3, 0)], withdraw_queue := [], last_withdraw_id := 0,
    nft_deposits := [], nft_withdraw_queue := [], last_nft_withdraw_id := 0,
    asks := [(1, (7, 42, 3, 500, 3))], asks_by_token := [((7, 42), 1)], last_ask_id := 1 }

/-- The state after account 4 buys (7,42) from `demoListing`. -/
def demoBought : MatchingEngine :=
  { owner := 1, admin := 2, quote_balance := [((3, 4), 0), ((3, 3), 0)],
    total_traded := [(2, 0), (3, 500)],
    withdraw_queue := [(1, (3, 500, .WithdrawMatched))], last_withdraw_id := 1,
    nft_deposits := [], nft_withdraw_queue := [(1, (4, 7, 42))], last_nft_withdraw_id := 1,
    asks := [], asks_by_token := [], last_ask_id := 1 }

/-- The setup calls of the section-8 scenario: owner 1 names admin 2; admin
    credits account 3 with 1000 of currency 3; account 3 withdraws it all;
    admin attests the NFT deposit (7,42) for account 3; account 3 lists it at
    price 500 in currency 3; admin credits account 4 with 500 of currency 3. -/
def scenarioCalls : List Call :=
  [ .set_admin 1 2, .register_deposit 2 3 1000 3, .withdraw 3 3 1000,
    .register_nft_deposit 2 7 42 3, .ask 3 7 42 3 500, .register_deposit 2 3 500 4 ]

/-- The state reached by the section-8 scenario just before the final buy. -/
def scenarioState : MatchingEngine := runAll scenarioCalls (MatchingEngine.new 1)

/-- A state holding only an attested NFT deposit (7,42) for account 3. -/
def csDeposit : MatchingEngine :=
  { owner := 1, admin := 2, quote_balance := [], total_traded := [(2, 0)],
    withdraw_queue := [], last_withdraw_id := 0, nft_deposits := [((7, 42), 3)],
    nft_withdraw_queue := [], last_nft_withdraw_id := 0, asks := [],
    asks_by_token := [], last_ask_id := 0 }

/-- `csDeposit` after account 3 lists (7,42) at price 500 in currency 3. -/
def csListed : MatchingEngine :=
  { owner := 1, admin := 2, quote_balance := [], total_traded := [(2, 0)],
    withdraw_queue := [], last_withdraw_id := 0, nft_deposits := [],
    nft_withdraw_queue := [], last_nft_withdraw_id := 0,
    asks := [(1, (7, 42, 3, 500, 3))], asks_by_token := [((7, 42), 1)], last_ask_id := 1 }

/-- `csListed` after account 3 cancels the listing. -/
def csCancelled : MatchingEngine :=
  { owner := 1, admin := 2, quote_balance := [], total_traded := [(2, 0)],
    withdraw_queue := [], last_withdraw_id := 0, nft_deposits := [],
    nft_withdraw_queue := [(1, (3, 7, 42))], last_nft_withdraw_id := 1,
    asks := [], asks_by_token := [], last_ask_id := 1 }

/-- Re-attesting a deposit for an already-listed token and listing it again:
    after this sequence listings 1 and 2 are both live for key (7,42) while
    the reverse index holds a single entry, pointing at 2. -/
def doubleListCalls : List Call :=
  [ .set_admin 1 2, .register_nft_deposit 2 7 42 3, .ask 3 7 42 3 500,
    .register_nft_deposit 2 7 42 3, .ask 3 7 42 3 600 ]

/-- The state reached by `doubleListCalls` from a fresh contract. -/
def doubleListState : MatchingEngine := runAll doubleListCalls (MatchingEngine.new 1)

/-- The state produced by a successful `buy`, written out explicitly:
    buyer debited, seller credited and immediately debited again by the
    seller-payout `vault_withdraw`, ask and reverse-index entry removed,
    one NFT-withdraw entry (buyer) and one quote-withdraw entry (seller,
    WithdrawMatched) appended, traded total bumped by the price. -/
def buySuccState (caller c t ask_id q p seller total : Nat) (s : MatchingEngine) : MatchingEngine :=
  { s with
    quote_balance :=
      hmInsert (hmInsert (hmInsert s.quote_balance (q, caller) (balance_of_or_zero s q caller - p))
          (q, seller) ((balance_of_or_zero s q seller + p) % U128))
        (q, seller) ((balance_of_or_zero s q seller + p) % U128 - p)
    total_traded := hmInsert s.total_traded q ((total + p) % U128)
    withdraw_queue := hmInsert s.withdraw_queue ((s.last_withdraw_id + 1) % U128) (seller, p, .WithdrawMatched)
    last_withdraw_id := (s.last_withdraw_id + 1) % U128
    nft_withdraw_queue := hmInsert s.nft_withdraw_queue ((s.last_nft_withdraw_id + 1) % U128) (caller, c, t)
    last_nft_withdraw_id := (s.last_nft_withdraw_id + 1) % U128
    asks := hmRemove s.asks ask_id
    asks_by_token := hmRemove s.asks_by_token (c, t) }


/- ===== Association-list lemmas (the HashMap model) ===== -/

theorem keys_nil {α β : Type} : keys ([] : List (α × β)) = [] := rfl

theorem keys_cons {α β : Type} (k : α) (v : β) (t : List (α × β)) :
    keys ((k, v) :: t) = k :: keys t := rfl

theorem hmGet_insert_self {α β : Type} [DecidableEq α] (l : List (α × β)) (k : α) (v : β) :
    hmGet (hmInsert l k v) k = some v := by
  induction l with
  | nil => simp [hmInsert, hmGet]
  | cons hd t ih =>
    obtain ⟨k1, v1⟩ := hd
    by_cases hk : k1 = k
    · simp [hmInsert, hmGet, hk]
    · simp [hmInsert, hmGet, hk, ih]

theorem hmGet_insert_ne {α β : Type} [DecidableEq α] (l : List (α × β)) (k k' : α) (v : β)
    (h : k ≠ k') : hmGet (hmInsert l k v) k' = hmGet l k' := by
  induction l with
  | nil => simp [hmInsert, hmGet, h]
  | cons hd t ih =>
    obtain ⟨k1, v1⟩ := hd
    by_cases hk : k1 = k
    · subst hk; simp [hmInsert, hmGet, h]
    · simp [hmInsert, hmGet, hk, ih]

theorem hmGet_insert_cases {α β : Type} [DecidableEq α] {l : List (α × β)} {k k' : α}
    {v w : β} (h : hmGet (hmInsert l k v) k' = some w) :
    (k' = k ∧ w = v) ∨ (k' ≠ k ∧ hmGet l k' = some w) := by
  by_cases hk : k' = k
  · rw [hk, hmGet_insert_self] at h
    exact Or.inl ⟨hk, (Option.some_inj.mp h).symm⟩
  · rw [hmGet_insert_ne l k k' v (fun he => hk he.symm)] at h
    exact Or.inr ⟨hk, h⟩

theorem hmGet_remove_ne {α β : Type} [DecidableEq α] (l : List (α × β)) (k k' : α)
    (h : k ≠ k') : hmGet (hmRemove l k) k' = hmGet l k' := by
  induction l with
  | nil => simp [hmRemove, hmGet]
  | cons hd t ih =>
    obtain ⟨k1, v1⟩ := hd
    by_cases hk : k1 = k
    · subst hk; simp [hmRemove, hmGet, h]
    · simp [hmRemove, hmGet, hk, ih]

theorem mem_keys_of_hmGet {α β : Type} [DecidableEq α] {l : List (α × β)} {k : α} {v : β}
    (h : hmGet l k = some v) : k ∈ keys l := by
  induction l with
  | nil => simp [hmGet] at h
  | cons hd t ih =>
    obtain ⟨k1, v1⟩ := hd
    simp only [hmGet] at h
    rw [keys_cons]
    by_cases hk : k1 = k
    · rw [hk]; exact List.mem_cons_self _ _
    · rw [if_neg hk] at h
      exact List.mem_cons_of_mem _ (ih h)

theorem hmGet_eq_none_of_not_mem {α β : Type} [DecidableEq α] {l : List (α × β)} {k : α}
    (h : k ∉ keys l) : hmGet l k = none := by
  cases he : hmGet l k with
  | none => rfl
  | some v => exact absurd (mem_keys_of_hmGet he) h

theorem hmGet_mem {α β : Type} [DecidableEq α] {l : List (α × β)} {k : α} {v : β}
    (h : hmGet l k = some v) : (k, v) ∈ l := by
  induction l with
  | nil => simp [hmGet] at h
  | cons hd t ih =>
    obtain ⟨k1, v1⟩ := hd
    simp only [hmGet] at h
    by_cases hk : k1 = k
    · rw [if_pos hk] at h
      obtain rfl := Option.some_inj.mp h
      rw [hk]
      exact List.mem_cons_self _ _
    · rw [if_neg hk] at h
      exact List.mem_cons_of_mem _ (ih h)

theorem mem_keys_hmInsert {α β : Type} [DecidableEq α] {l : List (α × β)} {k a : α} {v : β}
    (h : a ∈ keys (hmInsert l k v)) : a ∈ keys l ∨ a = k := by
  induction l with
  | nil =>
    simp only [hmInsert, keys_cons, keys_nil] at h
    exact Or.inr (List.mem_singleton.mp h)
  | cons hd t ih =>
    obtain ⟨k1, v1⟩ := hd
    simp only [hmInsert] at h
    by_cases hk : k1 = k
    · rw [if_pos hk, keys_cons] at h
      rcases List.mem_cons.mp h with h | h
      · exact Or.inr h
      · exact Or.inl (by rw [keys_cons]; exact List.mem_cons_of_mem _ h)
    · rw [if_neg hk, keys_cons] at h
      rcases List.mem_cons.mp h with h | h
      · exact Or.inl (by rw [keys_cons, h]; exact List.mem_cons_self _ _)
      · rcases ih h with h' | h'
        · exact Or.inl (by rw [keys_cons]; exact List.mem_cons_of_mem _ h')
        · exact Or.inr h'

theorem mem_keys_hmRemove {α β : Type} [DecidableEq α] {l : List (α × β)} {k a : α}
    (h : a ∈ keys (hmRemove l k)) : a ∈ keys l := by
  induction l with
  | nil => simp [hmRemove, keys_nil] at h
  | cons hd t ih =>
    obtain ⟨k1, v1⟩ := hd
    simp only [hmRemove] at h
    rw [keys_cons]
    by_cases hk : k1 = k
    · rw [if_pos hk] at h
      exact List.mem_cons_of_mem _ h
    · rw [if_neg hk, keys_cons] at h
      rcases List.mem_cons.mp h with h | h
      · rw [h]; exact List.mem_cons_self _ _
      · exact List.mem_cons_of_mem _ (ih h)

theorem nodup_keys_hmInsert {α β : Type} [DecidableEq α] {l : List (α × β)} (k : α) (v : β)
    (h : (keys l).Nodup) : (keys (hmInsert l k v)).Nodup := by
  induction l with
  | nil => simp [hmInsert, keys]
  | cons hd t ih =>
    obtain ⟨k1, v1⟩ := hd
    rw [keys_cons, List.nodup_cons] at h
    simp only [hmInsert]
    by_cases hk : k1 = k
    · rw [if_pos hk, keys_cons, List.nodup_cons]
      exact ⟨by rw [← hk]; exact h.1, h.2⟩
    · rw [if_neg hk, keys_cons, List.nodup_cons]
      refine ⟨fun hmem => ?_, ih h.2⟩
      rcases mem_keys_hmInsert hmem with h' | h'
      · exact h.1 h'
      · exact hk h'

theorem nodup_keys_hmRemove {α β : Type} [DecidableEq α] {l : List (α × β)} (k : α)
    (h : (keys l).Nodup) : (keys (hmRemove l k)).Nodup := by
  induction l with
  | nil => simp [hmRemove, keys]
  | cons hd t ih =>
    obtain ⟨k1, v1⟩ := hd
    rw [keys_cons, List.nodup_cons] at h
    simp only [hmRemove]
    by_cases hk : k1 = k
    · rw [if_pos hk]; exact h.2
    · rw [if_neg hk, keys_cons, List.nodup_cons]
      exact ⟨fun hmem => h.1 (mem_keys_hmRemove hmem), ih h.2⟩

theorem hmGet_remove_self {α β : Type} [DecidableEq α] {l : List (α × β)} (k : α)
    (h : (keys l).Nodup) : hmGet (hmRemove l k) k = none := by
  induction l with
  | nil => simp [hmRemove, hmGet]
  | cons hd t ih =>
    obtain ⟨k1, v1⟩ := hd
    rw [keys_cons, List.nodup_cons] at h
    simp only [hmRemove]
    by_cases hk : k1 = k
    · rw [if_pos hk]
      exact hmGet_eq_none_of_not_mem (by rw [← hk]; exact h.1)
    · rw [if_neg hk]
      simp only [hmGet]
      rw [if_neg hk]
      exact ih h.2

theorem balance_lt_of_WFbounds {s : MatchingEngine} {q u b : Nat}
    (hw : WFbounds s) (h : hmGet s.quote_balance (q, u) = some b) : b < U128 :=
  hw.1 _ (hmGet_mem h)

theorem balance_of_or_zero_lt {s : MatchingEngine} (hw : WFbounds s) (q u : Nat) :
    balance_of_or_zero s q u < U128 := by
  unfold balance_of_or_zero
  cases h : hmGet s.quote_balance (q, u) with
  | none => simp [U128]
  | some b => simpa using balance_lt_of_WFbounds hw h

theorem price_lt_of_WFbounds {s : MatchingEngine} {id cc tt q p a : Nat}
    (hw : WFbounds s) (h : hmGet s.asks id = some (cc, tt, q, p, a)) : p < U128 :=
  hw.2 _ (hmGet_mem h)

/- ===== Wrapping-addition arithmetic ===== -/

/-- If the contract's overflow guard `S < (S + p) % 2^128` holds for a
    representable `p`, then the addition did not wrap at all. -/
theorem wrap_add_gt {M S p : Nat} (hp : p < M) (h : S < (S + p) % M) :
    (S + p) % M = S + p := by
  have hM : 0 < M := Nat.pos_of_ne_zero (by rintro rfl; omega)
  have hSM : S < M := lt_of_lt_of_le h (Nat.le_of_lt (Nat.mod_lt _ hM))
  rcases Nat.lt_or_ge (S + p) M with hlt | hge
  · exact Nat.mod_eq_of_lt hlt
  · exfalso
    have hm : (S + p) % M = S + p - M := by
      rw [Nat.mod_eq_sub_mod hge, Nat.mod_eq_of_lt (by omega)]
    omega

/- ===== Success-shape lemmas, one per mutating message ===== -/

theorem set_admin_ok {caller a : Nat} {s s' : MatchingEngine}
    (h : set_admin caller a s = .ok s') :
    caller = s.owner ∧ s' = { s with admin := a } := by
  simp only [set_admin] at h
  split at h
  · exact Outcome.noConfusion h
  · rename_i hc
    injection h with h2
    exact ⟨Decidable.not_not.mp hc, h2.symm⟩

theorem reset_total_ok {caller q : Nat} {s s' : MatchingEngine}
    (h : reset_total caller q s = .ok s') :
    caller = s.owner ∧ s' = { s with total_traded := hmInsert s.total_traded q 0 } := by
  simp only [reset_total] at h
  split at h
  · exact Outcome.noConfusion h
  · rename_i hc
    injection h with h2
    exact ⟨Decidable.not_not.mp hc, h2.symm⟩

theorem register_deposit_ok {caller q b u : Nat} {s s' : MatchingEngine}
    (h : register_deposit caller q b u s = .ok s') :
    caller = s.admin ∧
    balance_of_or_zero s q u < (balance_of_or_zero s q u + b) % U128 ∧
    s' = { s with quote_balance := hmInsert s.quote_balance (q, u) ((balance_of_or_zero s q u + b) % U128) } := by
  simp only [register_deposit] at h
  split at h
  · exact Outcome.noConfusion h
  · rename_i hc
    split at h
    · exact Outcome.noConfusion h
    · rename_i hov
      injection h with h2
      exact ⟨Decidable.not_not.mp hc, Nat.lt_of_not_le hov, h2.symm⟩

theorem register_nft_deposit_ok {caller c t u : Nat} {s s' : MatchingEngine}
    (h : register_nft_deposit caller c t u s = .ok s') :
    caller = s.admin ∧
    s' = { s with nft_deposits := hmInsert s.nft_deposits (c, t) u } := by
  simp only [register_nft_deposit] at h
  split at h
  · exact Outcome.noConfusion h
  · rename_i hc
    injection h with h2
    exact ⟨Decidable.not_not.mp hc, h2.symm⟩

theorem vault_withdraw_ok {user q wb : Nat} {wt : WithdrawType} {s s' : MatchingEngine}
    (h : vault_withdraw user q wb wt s = .ok s') :
    wb ≤ balance_of_or_zero s q user ∧
    s' = { s with
      quote_balance := hmInsert s.quote_balance (q, user) (balance_of_or_zero s q user - wb)
      last_withdraw_id := (s.last_withdraw_id + 1) % U128
      withdraw_queue := hmInsert s.withdraw_queue ((s.last_withdraw_id + 1) % U128) (user, wb, wt) } := by
  simp only [vault_withdraw] at h
  split at h
  · exact Outcome.noConfusion h
  · rename_i hb
    injection h with h2
    exact ⟨Nat.le_of_not_lt hb, h2.symm⟩

theorem ask_ok {caller c t q p : Nat} {s s' : MatchingEngine}
    (h : ask caller c t q p s = .ok s') :
    ∃ dep, hmGet s.nft_deposits (c, t) = some dep ∧
      ¬(caller ≠ s.owner ∧ dep ≠ caller) ∧
      s' = { s with
        nft_deposits := hmRemove s.nft_deposits (c, t)
        last_ask_id := (s.last_ask_id + 1) % U128
        asks := hmInsert s.asks ((s.last_ask_id + 1) % U128) (c, t, q, p, dep)
        asks_by_token := hmInsert s.asks_by_token (c, t) ((s.last_ask_id + 1) % U128) } := by
  simp only [ask] at h
  cases hd : hmGet s.nft_deposits (c, t) with
  | none => rw [hd] at h; exact Outcome.noConfusion h
  | some dep =>
    rw [hd] at h
    simp only [] at h
    split at h
    · exact Outcome.noConfusion h
    · rename_i hauth
      injection h with h2
      exact ⟨dep, rfl, hauth, h2.symm⟩

theorem cancel_ok {caller c t : Nat} {s s' : MatchingEngine}
    (h : cancel caller c t s = .ok s') :
    ∃ ask_id cc tt qq pp user,
      hmGet s.asks_by_token (c, t) = some ask_id ∧
      hmGet s.asks ask_id = some (cc, tt, qq, pp, user) ∧
      ¬(caller ≠ s.owner ∧ caller ≠ user) ∧
      s' = { s with
        asks_by_token := hmRemove s.asks_by_token (c, t)
        asks := hmRemove s.asks ask_id
        last_nft_withdraw_id := (s.last_nft_withdraw_id + 1) % U128
        nft_withdraw_queue := hmInsert s.nft_withdraw_queue
          ((s.last_nft_withdraw_id + 1) % U128) (user, c, t) } := by
  simp only [cancel] at h
  cases ha : hmGet s.asks_by_token (c, t) with
  | none => rw [ha] at h; exact Outcome.noConfusion h
  | some ask_id =>
    rw [ha] at h
    simp only [] at h
    cases he : hmGet s.asks ask_id with
    | none => rw [he] at h; exact Outcome.noConfusion h
    | some entry =>
      obtain ⟨cc, tt, qq, pp, user⟩ := entry
      rw [he] at h
      simp only [] at h
      split at h
      · exact Outcome.noConfusion h
      · rename_i hauth
        injection h with h2
        exact ⟨ask_id, cc, tt, qq, pp, user, rfl, he, hauth, h2.symm⟩

theorem buy_ok {caller c t : Nat} {s s' : MatchingEngine}
    (h : buy caller c t s = .ok s') :
    ∃ ask_id cc tt q p seller total,
      hmGet s.asks_by_token (c, t) = some ask_id ∧
      hmGet s.asks ask_id = some (cc, tt, q, p, seller) ∧
      p ≤ balance_of_or_zero s q caller ∧
      balance_of_or_zero s q seller < (balance_of_or_zero s q seller + p) % U128 ∧
      p ≤ (balance_of_or_zero s q seller + p) % U128 ∧
      hmGet s.total_traded q = some total ∧
      s' = buySuccState caller c t ask_id q p seller total s := by
  simp only [buy] at h
  cases ha : hmGet s.asks_by_token (c, t) with
  | none => rw [ha] at h; exact Outcome.noConfusion h
  | some ask_id =>
    rw [ha] at h
    simp only [] at h
    cases he : hmGet s.asks ask_id with
    | none => rw [he] at h; exact Outcome.noConfusion h
    | some entry =>
      obtain ⟨cc, tt, q, p, seller⟩ := entry
      rw [he] at h
      simp only [] at h
      split at h
      · exact Outcome.noConfusion h
      rename_i hbuy
      split at h
      · exact Outcome.noConfusion h
      rename_i hov
      split at h
      · exact Outcome.noConfusion h
      rename_i s5 hv
      obtain ⟨hwb, hs5⟩ := vault_withdraw_ok hv
      subst hs5
      split at h
      · exact Outcome.noConfusion h
      rename_i total ht
      injection h with h2
      refine ⟨ask_id, cc, tt, q, p, seller, total, rfl, he, Nat.le_of_not_lt hbuy,
        Nat.lt_of_not_le hov, ?_, ?_, ?_⟩
      · simpa [remove_ask, balance_of_or_zero, hmGet_insert_self] using hwb
      · exact ht
      · rw [← h2]
        simp [buySuccState, remove_ask, balance_of_or_zero, hmGet_insert_self]

/- ===== Claim theorems ===== -/

/-- Claim C4 (confirmed): when the reverse index and ask map resolve a live
    listing for (c,t) with price p in currency q and the caller's balance in
    q (zero when absent) is strictly below p, `buy` panics with
    InsufficientFunds and the carried state is exactly the pre-state: no
    balance, listing, reverse-index entry, queue or counter was touched. -/
theorem C4_buy_insufficient_funds {s : MatchingEngine}
    {caller c t ask_id cc tt q p seller : Nat}
    (ha : hmGet s.asks_by_token (c, t) = some ask_id)
    (he : hmGet s.asks ask_id = some (cc, tt, q, p, seller))
    (hb : balance_of_or_zero s q caller < p) :
    buy caller c t s = .err .InsufficientFunds s := by
  simp only [buy, ha, he]
  rw [if_pos hb]

/-- Witness for C4: account 5 holds nothing, so buying the 500-priced
    listing of `demoListing` fails with InsufficientFunds and no mutation. -/
theorem C4_buy_insufficient_funds_witness :
    buy 5 7 42 demoListing = .err .InsufficientFunds demoListing :=
  @C4_buy_insufficient_funds demoListing 5 7 42 1 7 42 3 500 3
    (by decide) (by decide) (by decide)

/-- Claim C8 (confirmed): on a key with no reverse-index entry both `cancel`
    and `buy` panic with NotFound and the carried state is exactly the
    pre-state. -/
theorem C8_cancel_buy_not_found {s : MatchingEngine} {caller c t : Nat}
    (h : hmGet s.asks_by_token (c, t) = none) :
    cancel caller c t s = .err .NotFound s ∧ buy caller c t s = .err .NotFound s := by
  constructor
  · simp only [cancel, h]
  · simp only [buy, h]

/-- Witness for C8: key (9,9) is not listed in `demoListing`. -/
theorem C8_cancel_buy_not_found_witness :
    cancel 4 9 9 demoListing = .err .NotFound demoListing ∧
    buy 4 9 9 demoListing = .err .NotFound demoListing :=
  @C8_cancel_buy_not_found demoListing 4 9 9 (by decide)

/-- Claim C9 counterexample: the claim says a zero-amount credit is
    permitted and succeeds, but the admin crediting amount 0 is rejected
    with Overflow (the guard `initial + 0 > initial` fails). -/
theorem C9_zero_amount_rejected :
    register_deposit 2 3 0 5 demoListing = .err .Overflow demoListing := by decide

/-- Claim C9 (amended): for an admin caller, `register_deposit` fails with
    Overflow exactly when the wrapped sum does not exceed the prior balance —
    on arithmetic wrap-around and also whenever the amount is zero; otherwise
    it succeeds and stores the sum.  A zero-amount credit is rejected, not
    permitted. -/
theorem C9_register_deposit_exact {s : MatchingEngine} {q amt u : Nat}
    {caller : AccountId} (hc : caller = s.admin) :
    (register_deposit caller q amt u s = .err .Overflow s ↔
      (balance_of_or_zero s q u + amt) % U128 ≤ balance_of_or_zero s q u) ∧
    (balance_of_or_zero s q u < (balance_of_or_zero s q u + amt) % U128 →
      register_deposit caller q amt u s = .ok { s with
        quote_balance := hmInsert s.quote_balance (q, u) ((balance_of_or_zero s q u + amt) % U128) }) := by
  subst hc
  by_cases hov : (balance_of_or_zero s q u + amt) % U128 ≤ balance_of_or_zero s q u
  · refine ⟨⟨fun _ => hov, fun _ => ?_⟩, fun hlt => absurd hlt (Nat.not_lt.mpr hov)⟩
    simp [register_deposit, hov]
  · constructor
    · constructor
      · intro h
        simp [register_deposit, hov] at h
      · intro h
        exact absurd h hov
    · intro _
      simp [register_deposit, hov]

/-- Witness for C9 (amended), at a wrap-around input: crediting account 4
    (balance 500) with 2^128 - 1 in currency 3 is rejected with Overflow. -/
theorem C9_register_deposit_exact_witness :
    register_deposit 2 3 340282366920938463463374607431768211455 4 demoListing =
      .err .Overflow demoListing :=
  (@C9_register_deposit_exact demoListing 3 340282366920938463463374607431768211455 4 2
    (by decide)).1.mpr (by decide)

/-- Claim C3 (code bug): in the section-8 scenario the setup succeeds —
    account 4 holds 500 of currency 3 and listing 1 = (7,42,3,500,3) is
    live — but the final `buy` by account 4 panics with NotFound at the
    traded-volume update, because `total_traded` has no entry for currency 3
    (the constructor seeds only currency 2), instead of succeeding as the
    claim requires. -/
theorem C3_scenario_buy_panics :
    balance_of_or_zero scenarioState 3 4 = 500 ∧
    hmGet scenarioState.asks_by_token (7, 42) = some 1 ∧
    hmGet scenarioState.asks 1 = some (7, 42, 3, 500, 3) ∧
    get_total scenarioState 3 = none ∧
    errOf (buy 4 7 42 scenarioState) = some .NotFound := by decide

/-- Claim C1 counterexample: on `demoListing` (buyer 4, seller 3, price 500,
    currency 3) `buy` succeeds, yet the seller's recorded balance does not
    increase by the price: it is unchanged (the credited price is immediately
    moved to the currency-withdrawal queue by the seller payout). -/
theorem C1_seller_balance_not_increased :
    errOf (buy 4 7 42 demoListing) = none ∧
    balance_of_or_zero (stateOf (buy 4 7 42 demoListing)) 3 3 =
      balance_of_or_zero demoListing 3 3 ∧
    ¬ balance_of_or_zero (stateOf (buy 4 7 42 demoListing)) 3 3 =
        balance_of_or_zero demoListing 3 3 + 500 := by decide

/-- Claim C2 counterexample: on `scenarioState` the final `buy` fails its
    traded-volume unwrap only after the ledger, the listing book and both
    withdrawal queues have been mutated: the carried panic state differs from
    the pre-state, so a check failed after the first mutation. -/
theorem C2_check_fails_after_mutation :
    errOf (buy 4 7 42 scenarioState) = some .NotFound ∧
    stateOf (buy 4 7 42 scenarioState) ≠ scenarioState := by decide

/-- Claim C5 counterexample: after re-attesting the deposit of the listed
    token (7,42) and listing it a second time, listings 1 and 2 are both
    live with key (7,42) while the reverse index holds a single entry for
    that key, pointing at 2 — the correspondence is not one-to-one. -/
theorem C5_two_listings_one_index_entry :
    hmGet doubleListState.asks 1 = some (7, 42, 3, 500, 3) ∧
    hmGet doubleListState.asks 2 = some (7, 42, 3, 600, 3) ∧
    hmGet doubleListState.asks_by_token (7, 42) = some 2 ∧
    (1 : Nat) ≠ 2 := by decide

/-- Claim C7 (confirmed): a successful `ask` on a deposited token followed by
    a successful `cancel` of the same key leaves no listing and no
    reverse-index entry for the key, leaves the consumed deposit record
    absent (not restored), and appends exactly one NFT-withdraw entry, under
    the incremented id, addressed to the original deposit owner. -/
theorem C7_place_then_cancel {s s1 s2 : MatchingEngine}
    {caller1 caller2 c t q p dep : Nat}
    (hw : WFmaps s)
    (hd : hmGet s.nft_deposits (c, t) = some dep)
    (h1 : ask caller1 c t q p s = .ok s1)
    (h2 : cancel caller2 c t s1 = .ok s2) :
    hmGet s2.asks_by_token (c, t) = none ∧
    hmGet s2.asks ((s.last_ask_id + 1) % U128) = none ∧
    hmGet s2.nft_deposits (c, t) = none ∧
    s2.last_nft_withdraw_id = (s.last_nft_withdraw_id + 1) % U128 ∧
    s2.nft_withdraw_queue =
      hmInsert s.nft_withdraw_queue ((s.last_nft_withdraw_id + 1) % U128) (dep, c, t) := by
  obtain ⟨dep2, hd2, hauth1, hs1⟩ := ask_ok h1
  rw [hd] at hd2
  injection hd2 with hdd
  subst hdd
  subst hs1
  obtain ⟨ask_id, cc, tt, qq, pp, user, ha2, he2, hauth2, hs2⟩ := cancel_ok h2
  simp only [hmGet_insert_self, Option.some.injEq] at ha2
  subst ha2
  simp only [hmGet_insert_self, Option.some.injEq, Prod.mk.injEq] at he2
  obtain ⟨rfl, rfl, rfl, rfl, rfl⟩ := he2
  subst hs2
  refine ⟨?_, ?_, ?_, rfl, rfl⟩
  · exact hmGet_remove_self _ (nodup_keys_hmInsert _ _ hw.2.2.2.2.2.2)
  · exact hmGet_remove_self _ (nodup_keys_hmInsert _ _ hw.2.2.2.2.2.1)
  · exact hmGet_remove_self _ hw.2.2.2.1

/-- Witness for C7: deposit, list and cancel token (7,42) concretely. -/
theorem C7_place_then_cancel_witness :
    hmGet csCancelled.asks_by_token (7, 42) = none ∧
    hmGet csCancelled.asks ((csDeposit.last_ask_id + 1) % U128) = none ∧
    hmGet csCancelled.nft_deposits (7, 42) = none ∧
    csCancelled.last_nft_withdraw_id = (csDeposit.last_nft_withdraw_id + 1) % U128 ∧
    csCancelled.nft_withdraw_queue =
      hmInsert csDeposit.nft_withdraw_queue
        ((csDeposit.last_nft_withdraw_id + 1) % U128) (3, 7, 42) :=
  @C7_place_then_cancel csDeposit csListed csCancelled 3 3 7 42 3 500 3
    (by decide) (by decide) (by decide) (by decide)

/-- Claim C1 (amended): a successful `buy` by a caller other than the seller
    debits the buyer by exactly the price, leaves the seller's ledger balance
    unchanged overall (the credited price is immediately moved into the
    currency-withdrawal request by the seller payout), bumps the traded
    volume of the listed currency by exactly the price (no wrap-around under
    the stated bound), removes the listing and its reverse-index entry, and
    appends exactly one NFT-withdraw entry for the buyer and one
    currency-withdraw entry (seller, price, WithdrawMatched). -/
theorem C1_buy_settlement {s s' : MatchingEngine}
    {caller c t ask_id cc tt q p seller vol : Nat}
    (hw : WFmaps s) (hb : WFbounds s)
    (ha : hmGet s.asks_by_token (c, t) = some ask_id)
    (he : hmGet s.asks ask_id = some (cc, tt, q, p, seller))
    (hcs : caller ≠ seller)
    (hvol : hmGet s.total_traded q = some vol)
    (hnov : vol + p < U128)
    (h : buy caller c t s = .ok s') :
    p ≤ balance_of_or_zero s q caller ∧
    balance_of_or_zero s' q caller = balance_of_or_zero s q caller - p ∧
    balance_of_or_zero s' q seller = balance_of_or_zero s q seller ∧
    hmGet s'.total_traded q = some (vol + p) ∧
    hmGet s'.asks_by_token (c, t) = none ∧
    hmGet s'.asks ask_id = none ∧
    s'.last_withdraw_id = (s.last_withdraw_id + 1) % U128 ∧
    s'.withdraw_queue = hmInsert s.withdraw_queue ((s.last_withdraw_id + 1) % U128)
      (seller, p, WithdrawType.WithdrawMatched) ∧
    s'.last_nft_withdraw_id = (s.last_nft_withdraw_id + 1) % U128 ∧
    s'.nft_withdraw_queue = hmInsert s.nft_withdraw_queue
      ((s.last_nft_withdraw_id + 1) % U128) (caller, c, t) := by
  obtain ⟨ask_id2, cc2, tt2, q2, p2, seller2, total2, ha2, he2, hbuy, hov, hvp, ht2, hs'⟩ :=
    buy_ok h
  rw [ha] at ha2
  injection ha2 with hid
  subst hid
  rw [he] at he2
  injection he2 with hee
  simp only [Prod.mk.injEq] at hee
  obtain ⟨rfl, rfl, rfl, rfl, rfl⟩ := hee
  rw [hvol] at ht2
  injection ht2 with hv
  subst hv
  subst hs'
  have hp : p < U128 := price_lt_of_WFbounds hb he
  have hm : (balance_of_or_zero s q seller + p) % U128 = balance_of_or_zero s q seller + p :=
    wrap_add_gt hp hov
  have hkey : ((q, seller) : Nat × Nat) ≠ (q, caller) := by
    intro hk
    injection hk with hk1 hk2
    exact hcs hk2.symm
  refine ⟨hbuy, ?_, ?_, ?_, ?_, ?_, rfl, rfl, rfl, rfl⟩
  · simp only [buySuccState, balance_of_or_zero]
    rw [hmGet_insert_ne _ _ _ _ hkey, hmGet_insert_ne _ _ _ _ hkey, hmGet_insert_self]
    rfl
  · simp only [balance_of_or_zero] at hm
    simp only [buySuccState, balance_of_or_zero]
    rw [hmGet_insert_self]
    simp only [Option.getD_some]
    rw [hm]
    omega
  · simp only [buySuccState]
    rw [hmGet_insert_self, Nat.mod_eq_of_lt hnov]
  · exact hmGet_remove_self _ hw.2.2.2.2.2.2
  · exact hmGet_remove_self _ hw.2.2.2.2.2.1

/-- Witness for C1 (amended): applied to the concrete purchase on
    `demoListing` with buyer 4 and seller 3. -/
theorem C1_buy_settlement_witness :
    balance_of_or_zero demoBought 3 4 = balance_of_or_zero demoListing 3 4 - 500 ∧
    balance_of_or_zero demoBought 3 3 = balance_of_or_zero demoListing 3 3 :=
  ⟨(@C1_buy_settlement demoListing demoBought 4 7 42 1 7 42 3 500 3 0
      (by decide) (by decide) (by decide) (by decide) (by decide) (by decide)
      (by decide) (by decide)).2.1,
   (@C1_buy_settlement demoListing demoBought 4 7 42 1 7 42 3 500 3 0
      (by decide) (by decide) (by decide) (by decide) (by decide) (by decide)
      (by decide) (by decide)).2.2.1⟩

/-- Claim C10 (confirmed): once the listing resolves, the buyer-balance
    check passes and the seller-credit overflow guard passes, the
    insufficient-funds check inside the seller payout (`vault_withdraw` of
    the price, WithdrawMatched) can no longer fail on a representable state:
    the seller's balance at that point is the credited sum, which is at
    least the price.  The only panic `buy` can still raise is the NotFound
    of the traded-volume unwrap. -/
theorem C10_vault_check_unreachable {s s' : MatchingEngine}
    {caller c t ask_id cc tt q p seller : Nat} {e : Err}
    (hb : WFbounds s)
    (ha : hmGet s.asks_by_token (c, t) = some ask_id)
    (he : hmGet s.asks ask_id = some (cc, tt, q, p, seller))
    (hbuy : p ≤ balance_of_or_zero s q caller)
    (hov : balance_of_or_zero s q seller < (balance_of_or_zero s q seller + p) % U128)
    (h : buy caller c t s = .err e s') : e = .NotFound := by
  have hp : p < U128 := price_lt_of_WFbounds hb he
  have hm := wrap_add_gt hp hov
  have hm2 : ((hmGet s.quote_balance (q, seller)).getD 0 + p) % U128 =
      (hmGet s.quote_balance (q, seller)).getD 0 + p := by
    simpa [balance_of_or_zero] using hm
  have hnlt : ¬ (((hmGet s.quote_balance (q, seller)).getD 0 + p) % U128 < p) := by
    rw [hm2]; omega
  simp only [buy, ha, he] at h
  rw [if_neg (Nat.not_lt.mpr hbuy), if_neg (Nat.not_le.mpr hov)] at h
  split at h
  · rename_i e1 s5 hv
    exfalso
    simp only [vault_withdraw, remove_ask, balance_of_or_zero, hmGet_insert_self,
      Option.getD_some, if_neg hnlt] at hv
    exact Outcome.noConfusion hv
  · split at h
    · injection h with h1 h2
      exact h1.symm
    · exact Outcome.noConfusion h

/-- Witness for C10: on `scenarioState` every hypothesis holds and the buy
    indeed panics, necessarily with NotFound. -/
theorem C10_vault_check_unreachable_witness : Err.NotFound = Err.NotFound :=
  @C10_vault_check_unreachable scenarioState (stateOf (buy 4 7 42 scenarioState))
    4 7 42 1 7 42 3 500 3 Err.NotFound
    (by decide) (by decide) (by decide) (by decide) (by decide) (by decide)

/-- Claim C2 (amended): in every mutating message except `buy`, every
    failing check happens before the first mutation, so a panic carries a
    state identical to the pre-state; `buy` additionally satisfies this
    whenever the currency of the resolved listing has an entry in
    `total_traded` — without that proviso the traded-volume unwrap can panic
    after the mutations (see the counterexample). -/
theorem C2_checks_before_mutations {cl : Call} {s s' : MatchingEngine} {e : Err}
    (hb : WFbounds s) (ht : BuyTotalsOk cl s)
    (h : runCall cl s = .err e s') : s' = s := by
  cases cl with
  | set_admin caller a =>
    simp only [runCall, set_admin] at h
    split at h
    · injection h with h1 h2; exact h2.symm
    · exact Outcome.noConfusion h
  | reset_total caller qid =>
    simp only [runCall, reset_total] at h
    split at h
    · injection h with h1 h2; exact h2.symm
    · exact Outcome.noConfusion h
  | register_deposit caller qid b u =>
    simp only [runCall, register_deposit] at h
    split at h
    · injection h with h1 h2; exact h2.symm
    · split at h
      · injection h with h1 h2; exact h2.symm
      · exact Outcome.noConfusion h
  | register_nft_deposit caller c t u =>
    simp only [runCall, register_nft_deposit] at h
    split at h
    · injection h with h1 h2; exact h2.symm
    · exact Outcome.noConfusion h
  | withdraw caller qid b =>
    simp only [runCall, withdraw, vault_withdraw] at h
    split at h
    · injection h with h1 h2; exact h2.symm
    · exact Outcome.noConfusion h
  | ask caller c t qid pr =>
    simp only [runCall, ask] at h
    split at h
    · injection h with h1 h2; exact h2.symm
    · split at h
      · injection h with h1 h2; exact h2.symm
      · exact Outcome.noConfusion h
  | cancel caller c t =>
    simp only [runCall, cancel] at h
    split at h
    · injection h with h1 h2; exact h2.symm
    · split at h
      · injection h with h1 h2; exact h2.symm
      · split at h
        · injection h with h1 h2; exact h2.symm
        · exact Outcome.noConfusion h
  | buy caller c t =>
    simp only [runCall] at h
    simp only [BuyTotalsOk] at ht
    simp only [buy] at h
    split at h
    · injection h with h1 h2; exact h2.symm
    rename_i ask_id ha
    split at h
    · injection h with h1 h2; exact h2.symm
    rename_i x1 x2 q p seller he
    split at h
    · injection h with h1 h2; exact h2.symm
    rename_i hbuy
    split at h
    · injection h with h1 h2; exact h2.symm
    rename_i hov
    split at h
    · rename_i e1 s5 hv
      exfalso
      have hp : p < U128 := price_lt_of_WFbounds hb he
      have hm := wrap_add_gt hp (Nat.lt_of_not_le hov)
      have hm2 : ((hmGet s.quote_balance (q, seller)).getD 0 + p) % U128 =
          (hmGet s.quote_balance (q, seller)).getD 0 + p := by
        simpa [balance_of_or_zero] using hm
      have hnlt : ¬ (((hmGet s.quote_balance (q, seller)).getD 0 + p) % U128 < p) := by
        rw [hm2]; omega
      simp only [vault_withdraw, remove_ask, balance_of_or_zero, hmGet_insert_self,
        Option.getD_some, if_neg hnlt] at hv
      exact Outcome.noConfusion hv
    · rename_i s5 hv
      split at h
      · rename_i htt
        exfalso
        obtain ⟨hwb, hs5⟩ := vault_withdraw_ok hv
        subst hs5
        exact ht ask_id x1 x2 q p seller ha he htt
      · exact Outcome.noConfusion h

/-- Witness for C2 (amended): an uncovered withdraw fails before mutating. -/
theorem C2_checks_before_mutations_witness : demoListing = demoListing :=
  @C2_checks_before_mutations (Call.withdraw 5 3 700) demoListing demoListing
    Err.InsufficientFunds (by decide) trivial (by decide)

/- ===== Reachable-state invariants (for C5 and C6) ===== -/

theorem hmGet_remove_cases {α β : Type} [DecidableEq α] {l : List (α × β)} {k k' : α} {v : β}
    (hnd : (keys l).Nodup) (h : hmGet (hmRemove l k) k' = some v) :
    k' ≠ k ∧ hmGet l k' = some v := by
  by_cases hk : k' = k
  · subst hk
    rw [hmGet_remove_self _ hnd] at h
    exact Option.noConfusion h
  · rw [hmGet_remove_ne _ _ _ (fun he => hk he.symm)] at h
    exact ⟨hk, h⟩

theorem queue_push {β : Type} {l : List (Nat × β)} {last : Nat} {e : β}
    (hq : ∀ id v, hmGet l id = some v → 1 ≤ id ∧ id ≤ last) :
    ∀ id v, hmGet (hmInsert l (last + 1) e) id = some v → 1 ≤ id ∧ id ≤ last + 1 := by
  intro id v h
  rcases hmGet_insert_cases h with ⟨rfl, _⟩ | ⟨hne, hold⟩
  · omega
  · have h2 := hq id v hold
    omega

theorem step_preserves {s : MatchingEngine} {n : Nat} (cl : Call)
    (hinv : ReachInv s n) (hn : n + 1 < U128) : ReachInv (step s cl) (n + 1) := by
  obtain ⟨⟨w1, w2, w3, w4, w5, w6, w7⟩, ⟨ha1, ha2, ha3⟩, ⟨hq1, hq2⟩, ⟨hc1, hc2, hc3⟩⟩ := hinv
  unfold step
  cases hrun : runCall cl s with
  | err e s' =>
    exact ⟨⟨w1, w2, w3, w4, w5, w6, w7⟩, ⟨ha1, ha2, ha3⟩, ⟨hq1, hq2⟩,
      ⟨Nat.le_succ_of_le hc1, Nat.le_succ_of_le hc2, Nat.le_succ_of_le hc3⟩⟩
  | ok s' =>
    cases cl with
    | set_admin caller a =>
      obtain ⟨_, hs'⟩ := set_admin_ok hrun
      subst hs'
      exact ⟨⟨w1, w2, w3, w4, w5, w6, w7⟩, ⟨ha1, ha2, ha3⟩, ⟨hq1, hq2⟩,
        ⟨Nat.le_succ_of_le hc1, Nat.le_succ_of_le hc2, Nat.le_succ_of_le hc3⟩⟩
    | reset_total caller qid =>
      obtain ⟨_, hs'⟩ := reset_total_ok hrun
      subst hs'
      exact ⟨⟨w1, nodup_keys_hmInsert _ _ w2, w3, w4, w5, w6, w7⟩, ⟨ha1, ha2, ha3⟩,
        ⟨hq1, hq2⟩, ⟨Nat.le_succ_of_le hc1, Nat.le_succ_of_le hc2, Nat.le_succ_of_le hc3⟩⟩
    | register_deposit caller qid b u =>
      obtain ⟨_, _, hs'⟩ := register_deposit_ok hrun
      subst hs'
      exact ⟨⟨nodup_keys_hmInsert _ _ w1, w2, w3, w4, w5, w6, w7⟩, ⟨ha1, ha2, ha3⟩,
        ⟨hq1, hq2⟩, ⟨Nat.le_succ_of_le hc1, Nat.le_succ_of_le hc2, Nat.le_succ_of_le hc3⟩⟩
    | register_nft_deposit caller c t u =>
      obtain ⟨_, hs'⟩ := register_nft_deposit_ok hrun
      subst hs'
      exact ⟨⟨w1, w2, w3, nodup_keys_hmInsert _ _ w4, w5, w6, w7⟩, ⟨ha1, ha2, ha3⟩,
        ⟨hq1, hq2⟩, ⟨Nat.le_succ_of_le hc1, Nat.le_succ_of_le hc2, Nat.le_succ_of_le hc3⟩⟩
    | withdraw caller qid b =>
      obtain ⟨_, hs'⟩ := vault_withdraw_ok hrun
      have hmod : (s.last_withdraw_id + 1) % U128 = s.last_withdraw_id + 1 :=
        Nat.mod_eq_of_lt (by omega)
      subst hs'
      simp only [hmod]
      exact ⟨⟨nodup_keys_hmInsert _ _ w1, w2, nodup_keys_hmInsert _ _ w3, w4, w5, w6, w7⟩,
        ⟨ha1, ha2, ha3⟩, ⟨queue_push hq1, hq2⟩,
        ⟨Nat.le_succ_of_le hc1, Nat.succ_le_succ hc2, Nat.le_succ_of_le hc3⟩⟩
    | ask caller c t qid pr =>
      obtain ⟨dep, hdep, hauth, hs'⟩ := ask_ok hrun
      have hmod : (s.last_ask_id + 1) % U128 = s.last_ask_id + 1 :=
        Nat.mod_eq_of_lt (by omega)
      subst hs'
      simp only [hmod]
      refine ⟨⟨w1, w2, w3, nodup_keys_hmRemove _ w4, w5, nodup_keys_hmInsert _ _ w6,
        nodup_keys_hmInsert _ _ w7⟩, ⟨?_, ?_, ?_⟩, ⟨hq1, hq2⟩,
        ⟨Nat.succ_le_succ hc1, Nat.le_succ_of_le hc2, Nat.le_succ_of_le hc3⟩⟩
      · intro k id hk
        rcases hmGet_insert_cases hk with ⟨rfl, rfl⟩ | ⟨hne, hold⟩
        · exact ⟨⟨qid, pr, dep, hmGet_insert_self _ _ _⟩, Nat.le_add_left 1 _, Nat.le_refl _⟩
        · obtain ⟨⟨q2, p2, a2, hget⟩, hid1, hid2⟩ := ha1 k id hold
          refine ⟨⟨q2, p2, a2, ?_⟩, hid1, Nat.le_succ_of_le hid2⟩
          exact (hmGet_insert_ne s.asks (s.last_ask_id + 1) id (c, t, qid, pr, dep)
            (by omega)).trans hget
      · intro k1 k2 id h1 h2
        rcases hmGet_insert_cases h1 with ⟨hk1, hv1⟩ | ⟨hne1, hold1⟩ <;>
          rcases hmGet_insert_cases h2 with ⟨hk2, hv2⟩ | ⟨hne2, hold2⟩
        · rw [hk1, hk2]
        · exfalso
          have hb2 := (ha1 k2 id hold2).2.2
          omega
        · exfalso
          have hb1 := (ha1 k1 id hold1).2.2
          omega
        · exact ha2 k1 k2 id hold1 hold2
      · intro id e hid
        rcases hmGet_insert_cases hid with ⟨rfl, _⟩ | ⟨hne, hold⟩
        · exact ⟨Nat.le_add_left 1 _, Nat.le_refl _⟩
        · have h2 := ha3 id e hold
          exact ⟨h2.1, Nat.le_succ_of_le h2.2⟩
    | cancel caller c t =>
      obtain ⟨ask_id, cc, tt, qq, pp, user, ha', he', hauth, hs'⟩ := cancel_ok hrun
      have hmod : (s.last_nft_withdraw_id + 1) % U128 = s.last_nft_withdraw_id + 1 :=
        Nat.mod_eq_of_lt (by omega)
      subst hs'
      simp only [hmod]
      refine ⟨⟨w1, w2, w3, w4, nodup_keys_hmInsert _ _ w5, nodup_keys_hmRemove _ w6,
        nodup_keys_hmRemove _ w7⟩, ⟨?_, ?_, ?_⟩, ⟨hq1, queue_push hq2⟩,
        ⟨Nat.le_succ_of_le hc1, Nat.le_succ_of_le hc2, Nat.succ_le_succ hc3⟩⟩
      · intro k id hk
        obtain ⟨hne, hold⟩ := hmGet_remove_cases w7 hk
        obtain ⟨⟨q2, p2, a2, hget⟩, hid1, hid2⟩ := ha1 k id hold
        refine ⟨⟨q2, p2, a2, ?_⟩, hid1, hid2⟩
        have hidne : id ≠ ask_id := by
          intro hcontra
          subst hcontra
          exact hne (ha2 k (c, t) id hold ha')
        exact (hmGet_remove_ne s.asks ask_id id (fun hh => hidne hh.symm)).trans hget
      · intro k1 k2 id h1 h2
        exact ha2 k1 k2 id (hmGet_remove_cases w7 h1).2 (hmGet_remove_cases w7 h2).2
      · intro id e hid
        exact ha3 id e (hmGet_remove_cases w6 hid).2
    | buy caller c t =>
      obtain ⟨ask_id, cc, tt, qq, pp, seller, total, ha', he', _, _, _, _, hs'⟩ := buy_ok hrun
      have hmodw : (s.last_withdraw_id + 1) % U128 = s.last_withdraw_id + 1 :=
        Nat.mod_eq_of_lt (by omega)
      have hmodn : (s.last_nft_withdraw_id + 1) % U128 = s.last_nft_withdraw_id + 1 :=
        Nat.mod_eq_of_lt (by omega)
      subst hs'
      simp only [buySuccState, hmodw, hmodn]
      refine ⟨⟨nodup_keys_hmInsert _ _ (nodup_keys_hmInsert _ _ (nodup_keys_hmInsert _ _ w1)),
        nodup_keys_hmInsert _ _ w2, nodup_keys_hmInsert _ _ w3, w4,
        nodup_keys_hmInsert _ _ w5, nodup_keys_hmRemove _ w6, nodup_keys_hmRemove _ w7⟩,
        ⟨?_, ?_, ?_⟩, ⟨queue_push hq1, queue_push hq2⟩,
        ⟨Nat.le_succ_of_le hc1, Nat.succ_le_succ hc2, Nat.succ_le_succ hc3⟩⟩
      · intro k id hk
        obtain ⟨hne, hold⟩ := hmGet_remove_cases w7 hk
        obtain ⟨⟨q2, p2, a2, hget⟩, hid1, hid2⟩ := ha1 k id hold
        refine ⟨⟨q2, p2, a2, ?_⟩, hid1, hid2⟩
        have hidne : id ≠ ask_id := by
          intro hcontra
          subst hcontra
          exact hne (ha2 k (c, t) id hold ha')
        exact (hmGet_remove_ne s.asks ask_id id (fun hh => hidne hh.symm)).trans hget
      · intro k1 k2 id h1 h2
        exact ha2 k1 k2 id (hmGet_remove_cases w7 h1).2 (hmGet_remove_cases w7 h2).2
      · intro id e hid
        exact ha3 id e (hmGet_remove_cases w6 hid).2

theorem reachInv_new (owner : AccountId) : ReachInv (MatchingEngine.new owner) 0 := by
  refine ⟨⟨?_, ?_, ?_, ?_, ?_, ?_, ?_⟩, ⟨?_, ?_, ?_⟩, ⟨?_, ?_⟩, ?_, ?_, ?_⟩ <;>
    simp [MatchingEngine.new, keys, hmGet]

theorem runAll_reach {calls : List Call} : ∀ {s : MatchingEngine} {n : Nat},
    ReachInv s n → n + calls.length < U128 →
    ReachInv (runAll calls s) (n + calls.length) := by
  induction calls with
  | nil =>
    intro s n hinv hlen
    simpa [runAll] using hinv
  | cons cl rest ih =>
    intro s n hinv hlen
    have hlen1 : n + 1 < U128 := by
      simp only [List.length_cons] at hlen
      omega
    have h1 : ReachInv (step s cl) (n + 1) := step_preserves cl hinv hlen1
    have heq : n + (cl :: rest).length = (n + 1) + rest.length := by
      simp only [List.length_cons]
      omega
    rw [heq]
    have hlen2 : (n + 1) + rest.length < U128 := by
      simp only [List.length_cons] at hlen
      omega
    exact ih h1 hlen2

/-- Claim C5 (amended): in every state reachable by fewer than 2^128 calls,
    every reverse-index entry points at a live listing carrying exactly its
    (collection, token) key, and two distinct keys are never indexed to the
    same listing id; the correspondence is not one-to-one, however: a live
    listing can lack a reverse-index entry once its token has been
    re-deposited and re-listed (see the counterexample). -/
theorem C5_reverse_index_sound {calls : List Call} {owner : AccountId}
    (hlen : calls.length < U128) :
    (∀ k id, hmGet (runAll calls (MatchingEngine.new owner)).asks_by_token k = some id →
      ∃ q p a, hmGet (runAll calls (MatchingEngine.new owner)).asks id =
        some (k.1, k.2, q, p, a)) ∧
    (∀ k1 k2 id, hmGet (runAll calls (MatchingEngine.new owner)).asks_by_token k1 = some id →
      hmGet (runAll calls (MatchingEngine.new owner)).asks_by_token k2 = some id →
      k1 = k2) := by
  have h := runAll_reach (reachInv_new owner) (by simpa using hlen)
  exact ⟨fun k id hk => ((h.2.1).1 k id hk).1, (h.2.1).2.1⟩

/-- Witness for C5 (amended) on the double-listing run. -/
theorem C5_reverse_index_sound_witness :
    (∀ k id, hmGet doubleListState.asks_by_token k = some id →
      ∃ q p a, hmGet doubleListState.asks id = some (k.1, k.2, q, p, a)) ∧
    (∀ k1 k2 id, hmGet doubleListState.asks_by_token k1 = some id →
      hmGet doubleListState.asks_by_token k2 = some id → k1 = k2) :=
  @C5_reverse_index_sound doubleListCalls 1 (by decide)

/-- Claim C6 (confirmed; the unavoidable u128 bound on the number of calls
    is made explicit): in every reachable state each issued withdrawal id,
    NFT-withdrawal id and listing id lies in [1, counter] of its own id
    space — the counters start at 0, so the first issued id of each space is
    1 — and one further successful call either leaves a counter unchanged or
    bumps it by exactly one, issuing an id that was not a key of the
    corresponding map before the call: ids are strictly increasing and never
    reused, including after cancels and buys. -/
theorem C6_id_discipline {calls : List Call} {owner : AccountId} (cl : Call)
    (hlen : calls.length + 1 < U128) :
    (∀ id e, hmGet (runAll calls (MatchingEngine.new owner)).withdraw_queue id = some e →
      1 ≤ id ∧ id ≤ (runAll calls (MatchingEngine.new owner)).last_withdraw_id) ∧
    (∀ id e, hmGet (runAll calls (MatchingEngine.new owner)).nft_withdraw_queue id = some e →
      1 ≤ id ∧ id ≤ (runAll calls (MatchingEngine.new owner)).last_nft_withdraw_id) ∧
    (∀ id e, hmGet (runAll calls (MatchingEngine.new owner)).asks id = some e →
      1 ≤ id ∧ id ≤ (runAll calls (MatchingEngine.new owner)).last_ask_id) ∧
    AllocStep (runAll calls (MatchingEngine.new owner)) cl := by
  have h := runAll_reach (reachInv_new owner) (show 0 + calls.length < U128 by omega)
  obtain ⟨hwf, ⟨ha1, ha2, ha3⟩, ⟨hq1, hq2⟩, ⟨hc1, hc2, hc3⟩⟩ := h
  have hca : (runAll calls (MatchingEngine.new owner)).last_ask_id ≤ calls.length := by
    simpa using hc1
  have hcw : (runAll calls (MatchingEngine.new owner)).last_withdraw_id ≤ calls.length := by
    simpa using hc2
  have hcn : (runAll calls (MatchingEngine.new owner)).last_nft_withdraw_id ≤ calls.length := by
    simpa using hc3
  refine ⟨hq1, hq2, ha3, ?_⟩
  intro s' hrun
  have hmoda : ((runAll calls (MatchingEngine.new owner)).last_ask_id + 1) % U128 =
      (runAll calls (MatchingEngine.new owner)).last_ask_id + 1 :=
    Nat.mod_eq_of_lt (by omega)
  have hmodw : ((runAll calls (MatchingEngine.new owner)).last_withdraw_id + 1) % U128 =
      (runAll calls (MatchingEngine.new owner)).last_withdraw_id + 1 :=
    Nat.mod_eq_of_lt (by omega)
  have hmodn : ((runAll calls (MatchingEngine.new owner)).last_nft_withdraw_id + 1) % U128 =
      (runAll calls (MatchingEngine.new owner)).last_nft_withdraw_id + 1 :=
    Nat.mod_eq_of_lt (by omega)
  have fresha : hmGet (runAll calls (MatchingEngine.new owner)).asks
      ((runAll calls (MatchingEngine.new owner)).last_ask_id + 1) = none := by
    cases hg : hmGet (runAll calls (MatchingEngine.new owner)).asks
        ((runAll calls (MatchingEngine.new owner)).last_ask_id + 1) with
    | none => rfl
    | some v => exact absurd (ha3 _ _ hg).2 (by omega)
  have freshw : hmGet (runAll calls (MatchingEngine.new owner)).withdraw_queue
      ((runAll calls (MatchingEngine.new owner)).last_withdraw_id + 1) = none := by
    cases hg : hmGet (runAll calls (MatchingEngine.new owner)).withdraw_queue
        ((runAll calls (MatchingEngine.new owner)).last_withdraw_id + 1) with
    | none => rfl
    | some v => exact absurd (hq1 _ _ hg).2 (by omega)
  have freshn : hmGet (runAll calls (MatchingEngine.new owner)).nft_withdraw_queue
      ((runAll calls (MatchingEngine.new owner)).last_nft_withdraw_id + 1) = none := by
    cases hg : hmGet (runAll calls (MatchingEngine.new owner)).nft_withdraw_queue
        ((runAll calls (MatchingEngine.new owner)).last_nft_withdraw_id + 1) with
    | none => rfl
    | some v => exact absurd (hq2 _ _ hg).2 (by omega)
  cases cl with
  | set_admin caller a =>
    obtain ⟨_, hs'⟩ := set_admin_ok hrun
    subst hs'
    exact ⟨Or.inl rfl, Or.inl rfl, Or.inl rfl⟩
  | reset_total caller qid =>
    obtain ⟨_, hs'⟩ := reset_total_ok hrun
    subst hs'
    exact ⟨Or.inl rfl, Or.inl rfl, Or.inl rfl⟩
  | register_deposit caller qid b u =>
    obtain ⟨_, _, hs'⟩ := register_deposit_ok hrun
    subst hs'
    exact ⟨Or.inl rfl, Or.inl rfl, Or.inl rfl⟩
  | register_nft_deposit caller c t u =>
    obtain ⟨_, hs'⟩ := register_nft_deposit_ok hrun
    subst hs'
    exact ⟨Or.inl rfl, Or.inl rfl, Or.inl rfl⟩
  | withdraw caller qid b =>
    obtain ⟨_, hs'⟩ := vault_withdraw_ok hrun
    subst hs'
    simp only [hmodw]
    refine ⟨Or.inl trivial, Or.inr ⟨trivial, freshw, ?_⟩, Or.inl trivial⟩
    simp [hmGet_insert_self]
  | ask caller c t qid pr =>
    obtain ⟨dep, hdep, hauth, hs'⟩ := ask_ok hrun
    subst hs'
    simp only [hmoda]
    refine ⟨Or.inr ⟨trivial, fresha, ?_⟩, Or.inl trivial, Or.inl trivial⟩
    simp [hmGet_insert_self]
  | cancel caller c t =>
    obtain ⟨ask_id, cc, tt, qq, pp, user, ha', he', hauth, hs'⟩ := cancel_ok hrun
    subst hs'
    simp only [hmodn]
    refine ⟨Or.inl trivial, Or.inl trivial, Or.inr ⟨trivial, freshn, ?_⟩⟩
    simp [hmGet_insert_self]
  | buy caller c t =>
    obtain ⟨ask_id, cc, tt, qq, pp, seller, total, ha', he', _, _, _, _, hs'⟩ := buy_ok hrun
    subst hs'
    simp only [buySuccState, hmodw, hmodn]
    refine ⟨Or.inl trivial, Or.inr ⟨trivial, freshw, ?_⟩, Or.inr ⟨trivial, freshn, ?_⟩⟩
    · simp [hmGet_insert_self]
    · simp [hmGet_insert_self]

/-- Witness for C6: the section-8 setup followed by one more withdraw. -/
theorem C6_id_discipline_witness :
    (∀ id e, hmGet scenarioState.withdraw_queue id = some e →
      1 ≤ id ∧ id ≤ scenarioState.last_withdraw_id) ∧
    (∀ id e, hmGet scenarioState.nft_withdraw_queue id = some e →
      1 ≤ id ∧ id ≤ scenarioState.last_nft_withdraw_id) ∧
    (∀ id e, hmGet scenarioState.asks id = some e →
      1 ≤ id ∧ id ≤ scenarioState.last_ask_id) ∧
    AllocStep scenarioState (Call.withdraw 4 3 100) :=
  @C6_id_discipline scenarioCalls 1 (Call.withdraw 4 3 100) (by decide)
